import Mathlib

/-!
Shallow embedding of the Nebula content-addressable store
(`src/content/address.rs`, `src/storage/chunk.rs`, `src/storage/store.rs`,
`src/file/registry.rs`, `src/node.rs`) and proofs of the spec claims.

Conventions of the embedding:
* Rust byte slices (`&[u8]`, `Vec<u8>`) are `List Nat` whose elements are
  `< 256` (the bound is carried as a hypothesis where it matters).
* Rust strings are `List Char`.
* The cryptographic digest functions of the external `sha2` and `blake3`
  crates are abstracted as a pair of functions (`Hashers`); theorems that
  depend on collision-freeness take it as an explicit hypothesis on the
  concrete inputs involved.
* The filesystem owned by a `ContentStore` is the association list from the
  sharded chunk path (the pair `(first two chars, rest)` of the address
  string, exactly as `chunk_path` computes it) to the stored bytes.
-/

set_option autoImplicit false

namespace Nebula

/-- Hash algorithm tag, from `HashAlgorithm` in `src/content/address.rs`. -/
inductive HashAlgorithm where
  | sha256
  | blake3
deriving DecidableEq, Repr

/-- `Display for HashAlgorithm`: the lowercase algorithm name. -/
def HashAlgorithm.name : HashAlgorithm → List Char
  | .sha256 => "sha256".data
  | .blake3 => "blake3".data

/-- The digest functions of the `sha2` and `blake3` crates, abstracted.
The Rust code only ever feeds them byte slices and receives a 32-byte
digest; theorems state the facts they need about the digests explicitly. -/
structure Hashers where
  sha256H : List Nat → List Nat
  blake3H : List Nat → List Nat

/-- The lowercase hex digit table used by `hex::encode`. -/
def hexDigits : List Char := "0123456789abcdef".data

/-- One lowercase hex digit for a nibble (values `< 16`; larger values never
occur since the encoder only receives `b / 16` and `b % 16` of a byte). -/
def hexChar (n : Nat) : Char := hexDigits.getD n '0'

/-- `hex::encode`: two lowercase hex digits per byte, in input order. -/
def hexEncode : List Nat → List Char
  | [] => []
  | b :: rest => hexChar (b / 16) :: hexChar (b % 16) :: hexEncode rest

/-- Value of one hex digit as `hex::decode` accepts it (its `val()`
matches the byte ranges `b'0'..=b'9'`, `b'a'..=b'f'`, `b'A'..=b'F'`). -/
def hexVal (c : Char) : Option Nat :=
  if '0' ≤ c ∧ c ≤ '9' then some (c.toNat - '0'.toNat)
  else if 'a' ≤ c ∧ c ≤ 'f' then some (c.toNat - 'a'.toNat + 10)
  else if 'A' ≤ c ∧ c ≤ 'F' then some (c.toNat - 'A'.toNat + 10)
  else none

/-- `hex::decode`: consumes digit pairs; fails (`none`) on an odd-length
input or on a non-hex character.  The Rust caller maps both failure kinds
to the single error `InvalidHex`. -/
def hexDecode : List Char → Option (List Nat)
  | [] => some []
  | [_] => none
  | c1 :: c2 :: rest =>
    match hexVal c1, hexVal c2, hexDecode rest with
    | some hi, some lo, some ds => some ((16 * hi + lo) :: ds)
    | _, _, _ => none

/-- Rust `str::split(':')` collected to a vector: the list of maximal
(colon-free) segments; an input with no colon yields one segment, and the
empty input yields one empty segment. -/
def splitColon : List Char → List (List Char)
  | [] => [[]]
  | c :: rest =>
    if c = ':' then [] :: splitColon rest
    else
      match splitColon rest with
      | [] => [[c]]
      | p :: ps => (c :: p) :: ps

/-- `ContentAddress` from `src/content/address.rs`: a 32-byte digest plus
the algorithm tag.  The `[u8; 32]` digest is a `List Nat`; the Rust type
guarantees length 32 and bytes `< 256`, stated as hypotheses when used. -/
structure ContentAddress where
  hash : List Nat
  algorithm : HashAlgorithm
deriving DecidableEq, Repr

/-- `ContentAddressError` from `src/content/address.rs`. -/
inductive ContentAddressError where
  | invalidFormat
  | unsupportedAlgorithm
  | invalidHex
  | invalidHashLength
deriving DecidableEq, Repr

/-- `ContentAddress::from_data_with_algorithm`: dispatch on the tag to the
corresponding digest function. -/
def ContentAddress.from_data_with_algorithm (hs : Hashers) (data : List Nat)
    (algorithm : HashAlgorithm) : ContentAddress :=
  let hash := match algorithm with
    | .sha256 => hs.sha256H data
    | .blake3 => hs.blake3H data
  { hash := hash, algorithm := algorithm }

/-- `ContentAddress::from_data`: default algorithm is sha256. -/
def ContentAddress.from_data (hs : Hashers) (data : List Nat) : ContentAddress :=
  ContentAddress.from_data_with_algorithm hs data HashAlgorithm.sha256

/-- `ContentAddress::to_hex` (also its `Display`):
`format!("{}:{}", algorithm, hex::encode(hash))`. -/
def ContentAddress.to_hex (a : ContentAddress) : List Char :=
  a.algorithm.name ++ ':' :: hexEncode a.hash

/-- The match on `parts[0]` inside `ContentAddress::from_hex`. -/
def parseAlgorithm (p : List Char) : Option HashAlgorithm :=
  if p = "sha256".data then some HashAlgorithm.sha256
  else if p = "blake3".data then some HashAlgorithm.blake3
  else none

/-- `ContentAddress::from_hex`: split on `:` into exactly two parts, match
the algorithm tag, hex-decode the digest, require exactly 32 bytes. -/
def ContentAddress.from_hex (s : List Char) :
    Except ContentAddressError ContentAddress :=
  match splitColon s with
  | [p0, p1] =>
    match parseAlgorithm p0 with
    | none => .error .unsupportedAlgorithm
    | some algorithm =>
      match hexDecode p1 with
      | none => .error .invalidHex
      | some hash_bytes =>
        if hash_bytes.length ≠ 32 then .error .invalidHashLength
        else .ok { hash := hash_bytes, algorithm := algorithm }
  | _ => .error .invalidFormat

/-! ### Supporting lemmas for the textual codec -/

/-- Every character the hex encoder emits is a hex digit or the table
default, never a colon. -/
lemma hexChar_ne_colon (n : Nat) : hexChar n ≠ ':' := by
  by_cases h : n < 16
  · interval_cases n <;> decide
  · have hlen : hexDigits.length ≤ n := by
      have : hexDigits.length = 16 := by decide
      omega
    unfold hexChar
    rw [List.getD_eq_default _ _ hlen]
    decide

/-- The encoder output contains no colon. -/
lemma colon_not_mem_hexEncode (l : List Nat) : ':' ∉ hexEncode l := by
  induction l with
  | nil => simp [hexEncode]
  | cons b rest ih =>
    simp only [hexEncode, List.mem_cons]
    push_neg
    exact ⟨(hexChar_ne_colon _).symm, (hexChar_ne_colon _).symm, ih⟩

/-- Splitting a colon-free string gives the single segment. -/
lemma splitColon_of_not_mem (xs : List Char) (hx : ':' ∉ xs) :
    splitColon xs = [xs] := by
  induction xs with
  | nil => rfl
  | cons c rest ih =>
    have hc : c ≠ ':' := fun h => hx (h ▸ List.mem_cons_self c rest)
    have hrest : ':' ∉ rest := fun h => hx (List.mem_cons_of_mem c h)
    simp only [splitColon, if_neg hc, ih hrest]

/-- Splitting at the first colon when the prefix is colon-free. -/
lemma splitColon_append (xs ys : List Char) (hx : ':' ∉ xs) :
    splitColon (xs ++ ':' :: ys) = xs :: splitColon ys := by
  induction xs with
  | nil => simp [splitColon]
  | cons c rest ih =>
    have hc : c ≠ ':' := fun h => hx (h ▸ List.mem_cons_self c rest)
    have hrest : ':' ∉ rest := fun h => hx (List.mem_cons_of_mem c h)
    simp only [List.cons_append, splitColon, if_neg hc]
    rw [show rest.append (':' :: ys) = rest ++ ':' :: ys from rfl, ih hrest]

/-- Round trip of a single nibble through the digit table. -/
lemma hexVal_hexChar (v : Nat) (hv : v < 16) : hexVal (hexChar v) = some v := by
  have : ∀ w : Fin 16, hexVal (hexChar w.val) = some w.val := by decide
  exact this ⟨v, hv⟩

/-- Decoding inverts encoding on genuine byte lists. -/
lemma hexDecode_hexEncode (l : List Nat) (hb : ∀ b ∈ l, b < 256) :
    hexDecode (hexEncode l) = some l := by
  induction l with
  | nil => rfl
  | cons b rest ih =>
    have hb256 : b < 256 := hb b (List.mem_cons_self b rest)
    have hdiv : b / 16 < 16 := Nat.div_lt_of_lt_mul (by omega)
    have hmod : b % 16 < 16 := Nat.mod_lt b (by omega)
    have hrest : hexDecode (hexEncode rest) = some rest :=
      ih (fun x hx => hb x (List.mem_cons_of_mem b hx))
    show hexDecode (hexChar (b / 16) :: hexChar (b % 16) :: hexEncode rest) = _
    simp only [hexDecode, hexVal_hexChar _ hdiv, hexVal_hexChar _ hmod, hrest]
    rw [Nat.div_add_mod]

/-- C7: for every ContentAddress `addr` (either algorithm), parsing the
canonical textual form produced by `addr` yields `addr` back:
`from_hex(addr.to_hex()) == Ok(addr)`.  The two hypotheses are the
`[u8; 32]` invariant of the Rust digest field. -/
theorem from_hex_to_hex_roundtrip (a : ContentAddress) (hlen : a.hash.length = 32)
    (hb : ∀ b ∈ a.hash, b < 256) :
    ContentAddress.from_hex a.to_hex = .ok a := by
  have hsplit : splitColon a.to_hex = [a.algorithm.name, hexEncode a.hash] := by
    unfold ContentAddress.to_hex
    rw [splitColon_append _ _ (by cases a.algorithm <;> decide),
        splitColon_of_not_mem _ (colon_not_mem_hexEncode a.hash)]
  have halg : parseAlgorithm a.algorithm.name = some a.algorithm := by
    cases a.algorithm <;> decide
  unfold ContentAddress.from_hex
  rw [hsplit]
  simp only [halg, hexDecode_hexEncode a.hash hb, hlen]
  simp

/-! ### Chunker (`src/storage/chunk.rs`) -/

/-- `ChunkConfig` from `src/storage/chunk.rs`. -/
structure ChunkConfig where
  target_size : Nat
  min_size : Nat
  max_size : Nat
  use_content_defined : Bool
deriving DecidableEq, Repr

/-- A `Chunk`: the bytes together with their content address. -/
structure Chunk where
  data : List Nat
  address : ContentAddress
deriving DecidableEq, Repr

/-- `Chunk::new`: address computed from the data with the default algorithm. -/
def Chunk.new (hs : Hashers) (data : List Nat) : Chunk :=
  { data := data, address := ContentAddress.from_data hs data }

/-- `Chunker` wraps its configuration. -/
structure Chunker where
  config : ChunkConfig
deriving DecidableEq, Repr

/-- One step of `slice::chunks(target)`: consume `k` elements at a time.
Structural recursion on a fuel argument (`fuel = data.length` suffices when
`k > 0`; Rust's `chunks` panics on `k = 0`, which the claims exclude via
the spec constraint `0 < min ≤ target ≤ max`). -/
def chunksOfAux {α : Type} (k : Nat) : Nat → List α → List (List α)
  | _, [] => []
  | 0, _ :: _ => []
  | fuel + 1, a :: l => (a :: l).take k :: chunksOfAux k fuel ((a :: l).drop k)

/-- `slice::chunks(k)` as a list of slices. -/
def chunksOf {α : Type} (k : Nat) (l : List α) : List (List α) :=
  chunksOfAux k l.length l

/-- `Chunker::chunk_data_fixed_size`: consecutive `target_size` slices,
each turned into a `Chunk` with its own address. -/
def Chunker.chunk_data_fixed_size (hs : Hashers) (ck : Chunker)
    (data : List Nat) : List Chunk :=
  (chunksOf ck.config.target_size data).map fun chunk_slice =>
    { data := chunk_slice, address := ContentAddress.from_data hs chunk_slice }

/-- The output of the external `fastcdc::v2020::FastCDC` iterator for one
input: the list of `(offset, length)` pairs of the emitted chunks, in
order.  The crate guarantees (for nonempty input) that the offsets are
consecutive from `0`, the lengths positive, and the pairs cover the whole
input; `cutsCover` states exactly that guarantee, and theorems about the
content-defined mode take the cut list together with it as a hypothesis. -/
def cutsCover (pos n : Nat) : List (Nat × Nat) → Bool
  | [] => pos = n
  | (off, len) :: rest =>
    off = pos && 0 < len && pos + len ≤ n && cutsCover (pos + len) n rest

/-- `Chunker::chunk_data_fastcdc`: slice the input at the cut points the
external crate reports (`data[start..end].to_vec()`) and address each
slice. -/
def Chunker.chunk_data_fastcdc (hs : Hashers) (_ck : Chunker)
    (cuts : List (Nat × Nat)) (data : List Nat) : List Chunk :=
  cuts.map fun c =>
    let chunk_data := (data.drop c.1).take c.2
    { data := chunk_data, address := ContentAddress.from_data hs chunk_data }

/-- `Chunker::chunk_data`: empty input gives no chunks, otherwise dispatch
on `use_content_defined`. -/
def Chunker.chunk_data (hs : Hashers) (cuts : List (Nat × Nat)) (ck : Chunker)
    (data : List Nat) : List Chunk :=
  if data = [] then []
  else if ck.config.use_content_defined then
    ck.chunk_data_fastcdc hs cuts data
  else
    ck.chunk_data_fixed_size hs data

/-! ### Chunker lemmas -/

/-- Generalized concatenation for the fuel-driven `chunksOf`. -/
lemma chunksOfAux_flatten {α : Type} (k : Nat) (hk : 0 < k) :
    ∀ (fuel : Nat) (l : List α), l.length ≤ fuel →
      (chunksOfAux k fuel l).flatten = l := by
  intro fuel
  induction fuel with
  | zero =>
    intro l hl
    have : l = [] := List.length_eq_zero.mp (Nat.le_zero.mp hl)
    subst this
    rfl
  | succ fuel ih =>
    intro l hl
    match l with
    | [] => rfl
    | a :: l' =>
      have hlen : ((a :: l').drop k).length ≤ fuel := by
        rw [List.length_drop]
        simp only [List.length_cons] at hl ⊢
        omega
      simp only [chunksOfAux, List.flatten_cons]
      rw [ih ((a :: l').drop k) hlen]
      exact List.take_append_drop k (a :: l')

/-- Fixed-size chunking concatenates back to the input. -/
lemma chunksOf_flatten {α : Type} (k : Nat) (hk : 0 < k) (l : List α) :
    (chunksOf k l).flatten = l :=
  chunksOfAux_flatten k hk l.length l le_rfl

/-- Content-defined slices concatenate back to the suffix they cover. -/
lemma cuts_slices_flatten (b : List Nat) :
    ∀ (cuts : List (Nat × Nat)) (pos : Nat),
      cutsCover pos b.length cuts = true →
      (cuts.map fun c => (b.drop c.1).take c.2).flatten = b.drop pos := by
  intro cuts
  induction cuts with
  | nil =>
    intro pos h
    simp only [cutsCover, decide_eq_true_eq] at h
    simp [h, List.drop_of_length_le]
  | cons c rest ih =>
    intro pos h
    obtain ⟨off, len⟩ := c
    simp only [cutsCover, Bool.and_eq_true, decide_eq_true_eq] at h
    obtain ⟨⟨⟨hoff, hlen⟩, hle⟩, hrest⟩ := h
    simp only [List.map_cons, List.flatten_cons, ih (pos + len) hrest, hoff]
    rw [show b.drop (pos + len) = (b.drop pos).drop len by
          rw [List.drop_drop, Nat.add_comm]]
    exact List.take_append_drop len (b.drop pos)

/-! ### Content store (`src/storage/store.rs`)

The filesystem under `objects/` is modelled as an association list from the
sharded path (subdirectory name, file name) — exactly what `chunk_path`
computes — to the stored bytes.  `fs::write` + `fs::rename` of a fresh
temp file becomes insertion of a new entry; `path.exists()` becomes a
lookup; I/O is assumed to succeed (the `Io` error constructor is therefore
never produced by the model). -/

/-- `ContentStoreError` from `src/storage/store.rs` (the `Io` payload is
dropped: the model's filesystem operations do not fail). -/
inductive ContentStoreError where
  | io
  | contentNotFound (address : ContentAddress)
  | invalidAddress (reason : List Char)
  | corruption (expected : ContentAddress) (actual : ContentAddress)
deriving DecidableEq, Repr

/-- `ContentStoreConfig`: storage root, chunking configuration, and the
`verify_on_read` flag. -/
structure ContentStoreConfig where
  storage_path : List Char
  chunk_config : ChunkConfig
  verify_on_read : Bool
deriving DecidableEq, Repr

/-- A sharded object path: `(subdirectory name, file name)`. -/
abbrev ObjPath := List Char × List Char

/-- `ContentStore`: its configuration plus the contents of its `objects/`
directory. -/
structure ContentStore where
  config : ContentStoreConfig
  objects : List (ObjPath × List Nat)
deriving DecidableEq, Repr

/-- A store over an empty `objects/` directory, as `ContentStore::new`
produces on a fresh root. -/
def ContentStore.empty (config : ContentStoreConfig) : ContentStore :=
  { config := config, objects := [] }

/-- Association-list lookup on object paths (`path.exists()` /
`fs::read`). -/
def lookupObj : List (ObjPath × List Nat) → ObjPath → Option (List Nat)
  | [], _ => none
  | (p, d) :: rest, q => if p = q then some d else lookupObj rest q

/-- `ContentStore::chunk_path`: the address string split after its first
two characters into (shard subdirectory, file name). -/
def ContentStore.chunk_path (address : ContentAddress) : ObjPath :=
  let hash_str := address.to_hex
  (hash_str.take 2, hash_str.drop 2)

/-- `ContentStore::put_chunk`: compute the address; if the final path
already exists return the address with no write, otherwise write the bytes
(temp file + atomic rename, modelled as inserting the entry). -/
def ContentStore.put_chunk (hs : Hashers) (st : ContentStore)
    (data : List Nat) : ContentStore × ContentAddress :=
  let chunk := Chunk.new hs data
  let address := chunk.address
  let final_path := ContentStore.chunk_path address
  if (lookupObj st.objects final_path).isSome then
    (st, address)
  else
    ({ st with objects := (final_path, data) :: st.objects }, address)

/-- `ContentStore::get_chunk`: absent path is `ContentNotFound`; otherwise
read the bytes and, when `verify_on_read` is set, compare their address
against the requested one, reporting `Corruption{expected, actual}` on
mismatch. -/
def ContentStore.get_chunk (hs : Hashers) (st : ContentStore)
    (address : ContentAddress) : Except ContentStoreError Chunk :=
  match lookupObj st.objects (ContentStore.chunk_path address) with
  | none => .error (.contentNotFound address)
  | some data =>
    let chunk := Chunk.new hs data
    if st.config.verify_on_read then
      if chunk.address ≠ address then
        .error (.corruption address chunk.address)
      else .ok chunk
    else .ok chunk

/-- `ContentStore::has_chunk`. -/
def ContentStore.has_chunk (st : ContentStore) (address : ContentAddress) : Bool :=
  (lookupObj st.objects (ContentStore.chunk_path address)).isSome

/-- The `for` loop of `ContentStore::put_data`: put every chunk in order,
collecting the addresses. -/
def ContentStore.put_chunk_list (hs : Hashers) (st : ContentStore) :
    List Chunk → ContentStore × List ContentAddress
  | [] => (st, [])
  | c :: rest =>
    let r1 := ContentStore.put_chunk hs st c.data
    let r2 := ContentStore.put_chunk_list hs r1.1 rest
    (r2.1, r1.2 :: r2.2)

/-- `ContentStore::put_data`: chunk with the store's configuration, then
put each chunk. -/
def ContentStore.put_data (hs : Hashers) (cuts : List (Nat × Nat))
    (st : ContentStore) (data : List Nat) : ContentStore × List ContentAddress :=
  let chunker : Chunker := { config := st.config.chunk_config }
  ContentStore.put_chunk_list hs st (chunker.chunk_data hs cuts data)

/-- `ContentStore::get_data`: get every chunk in order and concatenate. -/
def ContentStore.get_data (hs : Hashers) (st : ContentStore) :
    List ContentAddress → Except ContentStoreError (List Nat)
  | [] => .ok []
  | a :: rest =>
    match ContentStore.get_chunk hs st a with
    | .error e => .error e
    | .ok chunk =>
      match ContentStore.get_data hs st rest with
      | .error e => .error e
      | .ok ds => .ok (chunk.data ++ ds)

/-- `ContentStoreStats` from `src/storage/store.rs`. -/
structure ContentStoreStats where
  total_chunks : Nat
  total_size : Nat
  storage_path : List Char
deriving DecidableEq, Repr

/-- `ContentStore::stats`: walk `objects/` counting files and their byte
sizes (in the model: the entries of the association list). -/
def ContentStore.stats (st : ContentStore) : ContentStoreStats :=
  { total_chunks := st.objects.length
    total_size := (st.objects.map (fun e => e.2.length)).sum
    storage_path := st.config.storage_path }

/-- `ContentStore::remove_chunk`: delete the entry if present, report
whether a deletion happened. -/
def ContentStore.remove_chunk (hs : Hashers) (st : ContentStore)
    (address : ContentAddress) : ContentStore × Bool :=
  let _ := hs
  let path := ContentStore.chunk_path address
  if (lookupObj st.objects path).isSome then
    ({ st with objects := st.objects.filter (fun e => e.1 ≠ path) }, true)
  else (st, false)

/-! ### Store lemmas -/

/-- The path a chunk of bytes is stored under. -/
def dataPath (hs : Hashers) (d : List Nat) : ObjPath :=
  ContentStore.chunk_path (ContentAddress.from_data hs d)

/-- Store integrity: every stored object sits at the path of its own bytes
and its bytes are drawn from `S`. -/
def GoodStore (hs : Hashers) (S : List (List Nat)) (st : ContentStore) : Prop :=
  ∀ p d, (p, d) ∈ st.objects → p = dataPath hs d ∧ d ∈ S

/-- Path-level collision freedom of the digest over a set of byte strings
(what collision resistance of sha256 gives in practice). -/
abbrev PathInj (hs : Hashers) (S : List (List Nat)) : Prop :=
  ∀ x ∈ S, ∀ y ∈ S, dataPath hs x = dataPath hs y → x = y

lemma lookupObj_mem {objs : List (ObjPath × List Nat)} {q : ObjPath}
    {d : List Nat} (h : lookupObj objs q = some d) : (q, d) ∈ objs := by
  induction objs with
  | nil => simp [lookupObj] at h
  | cons e rest ih =>
    obtain ⟨p, v⟩ := e
    by_cases hp : p = q
    · subst hp
      simp only [lookupObj, if_true, eq_self_iff_true, Option.some.injEq] at h
      subst h
      exact List.mem_cons_self _ _
    · simp only [lookupObj, if_neg hp] at h
      exact List.mem_cons_of_mem _ (ih h)

/-- `put_chunk` returns the address of the data, preserves the integrity
invariant, and afterwards the data's path holds exactly the data (the
deduplication branch relies on path-level collision freedom). -/
lemma put_chunk_spec (hs : Hashers) (S : List (List Nat)) (st : ContentStore)
    (d : List Nat) (hg : GoodStore hs S st) (hd : d ∈ S)
    (hinj : PathInj hs S) :
    (st.put_chunk hs d).2 = ContentAddress.from_data hs d ∧
    GoodStore hs S (st.put_chunk hs d).1 ∧
    lookupObj (st.put_chunk hs d).1.objects (dataPath hs d) = some d := by
  unfold ContentStore.put_chunk
  simp only [Chunk.new]
  rcases hl : lookupObj st.objects (dataPath hs d) with _ | d0
  · simp only [dataPath] at hl
    simp only [hl, Option.isSome_none, Bool.false_eq_true, if_false]
    refine ⟨by first | rfl | trivial, ?_, ?_⟩
    · intro p v hmem
      rcases List.mem_cons.mp hmem with hhead | htail
      · injection hhead with h1 h2
        subst h1
        subst h2
        exact ⟨rfl, hd⟩
      · exact hg p v htail
    · simp [lookupObj, dataPath]
  · have hmem := lookupObj_mem hl
    obtain ⟨hpath, hS⟩ := hg _ _ hmem
    have : d0 = d := hinj d0 hS d hd hpath.symm
    subst this
    simp only [dataPath] at hl
    simp only [hl, Option.isSome_some, if_true]
    exact ⟨by first | rfl | trivial, hg, hl⟩

/-- `put_chunk` never disturbs an existing object: a path that resolved to
some bytes still resolves to the same bytes afterwards. -/
lemma put_chunk_preserves (hs : Hashers) (st : ContentStore) (d : List Nat)
    (q : ObjPath) (v : List Nat) (h : lookupObj st.objects q = some v) :
    lookupObj (st.put_chunk hs d).1.objects q = some v := by
  unfold ContentStore.put_chunk
  simp only [Chunk.new]
  rcases hl : lookupObj st.objects
      (ContentStore.chunk_path (ContentAddress.from_data hs d)) with _ | d0
  · simp only [hl, Option.isSome_none, Bool.false_eq_true, if_false]
    have hq : ContentStore.chunk_path (ContentAddress.from_data hs d) ≠ q := by
      intro heq
      rw [heq, h] at hl
      cases hl
    simp [lookupObj, if_neg hq, h]
  · simp [hl, h]

lemma put_chunk_list_preserves (hs : Hashers) (cs : List Chunk) :
    ∀ (st : ContentStore) (q : ObjPath) (v : List Nat),
      lookupObj st.objects q = some v →
      lookupObj (st.put_chunk_list hs cs).1.objects q = some v := by
  induction cs with
  | nil => intro st q v h; exact h
  | cons c rest ih =>
    intro st q v h
    exact ih _ _ _ (put_chunk_preserves hs st c.data q v h)

/-- The `put_data` loop: the returned addresses are the chunk addresses in
order, the invariant is preserved, and afterwards every chunk's bytes can
be looked up at their path. -/
lemma put_chunk_list_spec (hs : Hashers) (S : List (List Nat))
    (hinj : PathInj hs S) (cs : List Chunk) :
    ∀ (st : ContentStore), GoodStore hs S st → (∀ c ∈ cs, c.data ∈ S) →
      GoodStore hs S (st.put_chunk_list hs cs).1 ∧
      (st.put_chunk_list hs cs).2
        = cs.map (fun c => ContentAddress.from_data hs c.data) ∧
      ∀ c ∈ cs,
        lookupObj (st.put_chunk_list hs cs).1.objects (dataPath hs c.data)
          = some c.data := by
  induction cs with
  | nil =>
    intro st hg _
    exact ⟨hg, rfl, by intro c hc; cases hc⟩
  | cons c rest ih =>
    intro st hg hmem
    have hc : c.data ∈ S := hmem c (List.mem_cons_self c rest)
    obtain ⟨haddr, hg1, hlook1⟩ := put_chunk_spec hs S st c.data hg hc hinj
    have hrest : ∀ x ∈ rest, x.data ∈ S :=
      fun x hx => hmem x (List.mem_cons_of_mem c hx)
    obtain ⟨hg2, haddrs, hlook2⟩ := ih (st.put_chunk hs c.data).1 hg1 hrest
    refine ⟨?_, ?_, ?_⟩
    · simpa only [ContentStore.put_chunk_list] using hg2
    · simp only [ContentStore.put_chunk_list, List.map_cons]
      exact congrArg₂ _ haddr haddrs
    · intro x hx
      rcases List.mem_cons.mp hx with hx1 | hx2
      · subst hx1
        simpa only [ContentStore.put_chunk_list] using
          put_chunk_list_preserves hs rest _ _ _ hlook1
      · simpa only [ContentStore.put_chunk_list] using hlook2 x hx2

/-- `get_data` over the addresses of byte strings whose objects are intact
returns the concatenation, whatever `verify_on_read` is (verification
recomputes the very digest the path was derived from). -/
lemma get_data_of_lookups (hs : Hashers) (st : ContentStore) :
    ∀ (l : List (List Nat)),
      (∀ d ∈ l, lookupObj st.objects (dataPath hs d) = some d) →
      st.get_data hs (l.map (fun d => ContentAddress.from_data hs d))
        = .ok l.flatten := by
  intro l
  induction l with
  | nil => intro _; rfl
  | cons d rest ih =>
    intro hlook
    have hd : lookupObj st.objects (dataPath hs d) = some d :=
      hlook d (List.mem_cons_self d rest)
    have hget : st.get_chunk hs (ContentAddress.from_data hs d)
        = .ok (Chunk.new hs d) := by
      unfold ContentStore.get_chunk
      simp only [dataPath] at hd
      rw [hd]
      simp [Chunk.new]
    simp only [List.map_cons, ContentStore.get_data, hget,
      ih (fun x hx => hlook x (List.mem_cons_of_mem d hx)), List.flatten_cons]
    rfl

/-! ### Chunker concatenation lemmas -/

/-- `chunk_data` concatenates back to its input in both modes. -/
lemma chunk_data_flatten (hs : Hashers) (cuts : List (Nat × Nat))
    (ck : Chunker) (b : List Nat) (ht : 0 < ck.config.target_size)
    (hcuts : cutsCover 0 b.length cuts = true) :
    ((ck.chunk_data hs cuts b).map Chunk.data).flatten = b := by
  unfold Chunker.chunk_data
  by_cases hb : b = []
  · subst hb
    simp
  · rw [if_neg hb]
    by_cases hcdc : ck.config.use_content_defined = true
    · rw [if_pos hcdc]
      unfold Chunker.chunk_data_fastcdc
      rw [List.map_map]
      have h := cuts_slices_flatten b cuts 0 hcuts
      simpa using h
    · rw [if_neg hcdc]
      unfold Chunker.chunk_data_fixed_size
      rw [List.map_map]
      rw [show (Chunk.data ∘ fun chunk_slice =>
            ({ data := chunk_slice,
               address := ContentAddress.from_data hs chunk_slice } : Chunk))
          = (id : List Nat → List Nat) from rfl, List.map_id]
      exact chunksOf_flatten ck.config.target_size ht b

/-- Every chunk `chunk_data` emits carries the address of its own bytes. -/
lemma chunk_data_addresses (hs : Hashers) (cuts : List (Nat × Nat))
    (ck : Chunker) (b : List Nat) :
    ∀ c ∈ ck.chunk_data hs cuts b,
      c.address = ContentAddress.from_data hs c.data := by
  intro c hc
  unfold Chunker.chunk_data at hc
  by_cases hb : b = []
  · rw [if_pos hb] at hc
    cases hc
  · rw [if_neg hb] at hc
    by_cases hcdc : ck.config.use_content_defined = true
    · rw [if_pos hcdc] at hc
      unfold Chunker.chunk_data_fastcdc at hc
      obtain ⟨s, _, rfl⟩ := List.mem_map.mp hc
      rfl
    · rw [if_neg hcdc] at hc
      unfold Chunker.chunk_data_fixed_size at hc
      obtain ⟨s, _, rfl⟩ := List.mem_map.mp hc
      rfl

/-! ### Claim theorems for the chunker and the store -/

/-- C2: for every byte string `b` and every chunker configuration
satisfying the spec constraint `0 < min ≤ target ≤ max` (Rust
`slice::chunks` panics on a zero size), in both modes: the concatenation
of the data slices of `chunk_data(b)`, in order, equals `b`; each
returned chunk's address is `ContentAddress::from_data` of its slice;
and empty input yields the empty sequence.  In content-defined mode the
cut list is the output of the external `fastcdc` crate, constrained by
its documented guarantee `cutsCover`. -/
theorem chunk_data_spec (hs : Hashers) (cuts : List (Nat × Nat))
    (cfg : ChunkConfig) (b : List Nat)
    (hvalid : 0 < cfg.min_size ∧ cfg.min_size ≤ cfg.target_size ∧
      cfg.target_size ≤ cfg.max_size)
    (hcuts : cutsCover 0 b.length cuts = true) :
    ((Chunker.chunk_data hs cuts ⟨cfg⟩ b).map Chunk.data).flatten = b
    ∧ (∀ c ∈ Chunker.chunk_data hs cuts ⟨cfg⟩ b,
        c.address = ContentAddress.from_data hs c.data)
    ∧ Chunker.chunk_data hs cuts ⟨cfg⟩ ([] : List Nat) = [] :=
  ⟨chunk_data_flatten hs cuts ⟨cfg⟩ b (show 0 < cfg.target_size by omega) hcuts,
   chunk_data_addresses hs cuts ⟨cfg⟩ b, rfl⟩

/-- Concrete hashers for witnesses: the digest of a byte string is the
byte string itself (injective on the small concrete inputs used). -/
def idHashers : Hashers := { sha256H := fun d => d, blake3H := fun d => d }

/-- Witness for C2 at a concrete input (content-defined mode, input
`[1,2,3]`, cuts `[(0,2),(2,1)]`). -/
theorem chunk_data_spec_witness :
    (0 < 1 ∧ 1 ≤ 2 ∧ 2 ≤ 4)
    ∧ cutsCover 0 ([1, 2, 3] : List Nat).length [(0, 2), (2, 1)] = true
    ∧ (((Chunker.chunk_data idHashers [(0, 2), (2, 1)]
          ⟨⟨2, 1, 4, true⟩⟩ [1, 2, 3]).map Chunk.data).flatten = [1, 2, 3]
       ∧ (∀ c ∈ Chunker.chunk_data idHashers [(0, 2), (2, 1)]
            ⟨⟨2, 1, 4, true⟩⟩ [1, 2, 3],
           c.address = ContentAddress.from_data idHashers c.data)
       ∧ Chunker.chunk_data idHashers [(0, 2), (2, 1)]
           ⟨⟨2, 1, 4, true⟩⟩ ([] : List Nat) = []) :=
  ⟨by decide, by decide,
   chunk_data_spec idHashers [(0, 2), (2, 1)] ⟨2, 1, 4, true⟩ [1, 2, 3]
     (by decide) (by decide)⟩

/-- C1: for every byte string `b`, storing `b` with `put_data` into a fresh
store and reading back with `get_data` on the returned address list, in
order, yields exactly `b`.  Hypotheses: the spec's chunker-config
constraint, the `fastcdc` crate guarantee on the cut list, and
collision-freeness of the digest over the chunks of `b` (what sha256
provides in practice). -/
theorem put_data_get_data_roundtrip (hs : Hashers) (cuts : List (Nat × Nat))
    (cfg : ContentStoreConfig) (b : List Nat)
    (ht : 0 < cfg.chunk_config.target_size)
    (hcuts : cutsCover 0 b.length cuts = true)
    (hinj : PathInj hs
      ((Chunker.chunk_data hs cuts ⟨cfg.chunk_config⟩ b).map Chunk.data)) :
    ContentStore.get_data hs
        (ContentStore.put_data hs cuts (ContentStore.empty cfg) b).1
        (ContentStore.put_data hs cuts (ContentStore.empty cfg) b).2
      = .ok b := by
  have hgood : GoodStore hs
      ((Chunker.chunk_data hs cuts ⟨cfg.chunk_config⟩ b).map Chunk.data)
      (ContentStore.empty cfg) := by
    intro p d hmem
    cases hmem
  obtain ⟨_, haddrs, hlook⟩ := put_chunk_list_spec hs
    ((Chunker.chunk_data hs cuts ⟨cfg.chunk_config⟩ b).map Chunk.data) hinj
    (Chunker.chunk_data hs cuts ⟨cfg.chunk_config⟩ b) (ContentStore.empty cfg)
    hgood (fun c hc => List.mem_map_of_mem Chunk.data hc)
  have hpd : ContentStore.put_data hs cuts (ContentStore.empty cfg) b
      = ContentStore.put_chunk_list hs (ContentStore.empty cfg)
          (Chunker.chunk_data hs cuts ⟨cfg.chunk_config⟩ b) := rfl
  rw [hpd, haddrs]
  have hlook2 : ∀ d ∈ (Chunker.chunk_data hs cuts ⟨cfg.chunk_config⟩ b).map
      Chunk.data,
      lookupObj (ContentStore.put_chunk_list hs (ContentStore.empty cfg)
        (Chunker.chunk_data hs cuts ⟨cfg.chunk_config⟩ b)).1.objects
        (dataPath hs d) = some d := by
    intro d hd
    obtain ⟨c, hc, rfl⟩ := List.mem_map.mp hd
    exact hlook c hc
  have hget := get_data_of_lookups hs
    (ContentStore.put_chunk_list hs (ContentStore.empty cfg)
      (Chunker.chunk_data hs cuts ⟨cfg.chunk_config⟩ b)).1
    ((Chunker.chunk_data hs cuts ⟨cfg.chunk_config⟩ b).map Chunk.data) hlook2
  rw [List.map_map] at hget
  rw [show ((fun d => ContentAddress.from_data hs d) ∘ Chunk.data)
      = fun c : Chunk => ContentAddress.from_data hs c.data from rfl] at hget
  rw [hget, chunk_data_flatten hs cuts ⟨cfg.chunk_config⟩ b ht hcuts]

/-- Witness for C1: content-defined mode over `[1,2,3]` with cuts
`[(0,2),(2,1)]` and the identity hashers. -/
theorem put_data_get_data_roundtrip_witness :
    (0 < 2)
    ∧ cutsCover 0 ([1, 2, 3] : List Nat).length [(0, 2), (2, 1)] = true
    ∧ PathInj idHashers
        ((Chunker.chunk_data idHashers [(0, 2), (2, 1)]
          ⟨⟨2, 1, 4, true⟩⟩ [1, 2, 3]).map Chunk.data)
    ∧ ContentStore.get_data idHashers
        (ContentStore.put_data idHashers [(0, 2), (2, 1)]
          (ContentStore.empty ⟨"store".data, ⟨2, 1, 4, true⟩, true⟩) [1, 2, 3]).1
        (ContentStore.put_data idHashers [(0, 2), (2, 1)]
          (ContentStore.empty ⟨"store".data, ⟨2, 1, 4, true⟩, true⟩) [1, 2, 3]).2
      = .ok [1, 2, 3] :=
  ⟨by decide, by decide, by decide,
   put_data_get_data_roundtrip idHashers [(0, 2), (2, 1)]
     ⟨"store".data, ⟨2, 1, 4, true⟩, true⟩ [1, 2, 3]
     (by decide) (by decide) (by decide)⟩

/-- C3: `put_chunk(b)` twice on an initially empty store returns the same
address from both calls and leaves exactly one stored object, so
`stats().total_chunks == 1`. -/
theorem put_chunk_twice_dedup (hs : Hashers) (cfg : ContentStoreConfig)
    (b : List Nat) :
    ((ContentStore.empty cfg).put_chunk hs b).2
        = ((((ContentStore.empty cfg).put_chunk hs b).1).put_chunk hs b).2
    ∧ ((((ContentStore.empty cfg).put_chunk hs b).1).put_chunk hs b).1.objects.length
        = 1
    ∧ (((((ContentStore.empty cfg).put_chunk hs b).1).put_chunk hs b).1.stats).total_chunks
        = 1 := by
  refine ⟨?_, ?_, ?_⟩ <;>
    simp [ContentStore.put_chunk, ContentStore.empty, lookupObj,
      ContentStore.stats, Chunk.new]

/-- C4: `get_chunk(addr)` returns `ContentNotFound{addr}` when nothing is
stored at `chunk_path(addr)`, and when `verify_on_read` is on and the
stored bytes do not hash back to `addr` it returns
`Corruption{expected := addr, actual := address-of-read-bytes}`. -/
theorem get_chunk_notfound_corruption (hs : Hashers) (st : ContentStore)
    (address : ContentAddress) (d : List Nat) :
    (lookupObj st.objects (ContentStore.chunk_path address) = none →
      st.get_chunk hs address = .error (.contentNotFound address))
    ∧ (lookupObj st.objects (ContentStore.chunk_path address) = some d →
       st.config.verify_on_read = true →
       ContentAddress.from_data hs d ≠ address →
       st.get_chunk hs address
         = .error (.corruption address (ContentAddress.from_data hs d))) := by
  constructor
  · intro h
    unfold ContentStore.get_chunk
    rw [h]
  · intro h hv hne
    unfold ContentStore.get_chunk
    rw [h]
    simp [Chunk.new, hv, hne]

/-- A store holding one "corrupted" object for the C4 and C9 witnesses:
the bytes `[9, 9]` sit at the path of address-of-`[1]`. -/
def corruptStoreW : ContentStore :=
  { config := ⟨"store".data, ⟨2, 1, 4, true⟩, true⟩
    objects := [(ContentStore.chunk_path
      (ContentAddress.from_data idHashers [1]), [9, 9])] }

/-- Witness for C4: the not-found branch on an empty store and the
corruption branch on `corruptStoreW`. -/
theorem get_chunk_notfound_corruption_witness :
    (lookupObj (ContentStore.empty
        ⟨"store".data, ⟨2, 1, 4, true⟩, true⟩).objects
        (ContentStore.chunk_path (ContentAddress.from_data idHashers [1]))
        = none
      ∧ (ContentStore.empty ⟨"store".data, ⟨2, 1, 4, true⟩, true⟩).get_chunk
          idHashers (ContentAddress.from_data idHashers [1])
        = .error (.contentNotFound (ContentAddress.from_data idHashers [1])))
    ∧ (lookupObj corruptStoreW.objects
        (ContentStore.chunk_path (ContentAddress.from_data idHashers [1]))
        = some [9, 9]
      ∧ corruptStoreW.config.verify_on_read = true
      ∧ ContentAddress.from_data idHashers [9, 9]
          ≠ ContentAddress.from_data idHashers [1]
      ∧ corruptStoreW.get_chunk idHashers (ContentAddress.from_data idHashers [1])
        = .error (.corruption (ContentAddress.from_data idHashers [1])
            (ContentAddress.from_data idHashers [9, 9]))) :=
  ⟨⟨by decide,
    (get_chunk_notfound_corruption idHashers
      (ContentStore.empty ⟨"store".data, ⟨2, 1, 4, true⟩, true⟩)
      (ContentAddress.from_data idHashers [1]) []).1 (by decide)⟩,
   ⟨by decide, by decide, by decide,
    (get_chunk_notfound_corruption idHashers corruptStoreW
      (ContentAddress.from_data idHashers [1]) [9, 9]).2
      (by decide) (by decide) (by decide)⟩⟩

/-- C9: if an object already exists at `chunk_path(address-of-data)` then
`put_chunk(data)` returns the address immediately and performs no write:
the store is returned unchanged, whatever the existing bytes are — so
re-putting data never repairs an externally corrupted object. -/
theorem put_chunk_existing_noop (hs : Hashers) (st : ContentStore)
    (d : List Nat)
    (h : (lookupObj st.objects (dataPath hs d)).isSome = true) :
    st.put_chunk hs d = (st, ContentAddress.from_data hs d) := by
  unfold ContentStore.put_chunk
  simp only [Chunk.new]
  simp only [dataPath] at h
  rw [if_pos h]

/-- Witness for C9 on `corruptStoreW`: the object at the path of
address-of-`[1]` holds `[9, 9]` (which does not hash to that address), and
`put_chunk([1])` still leaves the store unchanged. -/
theorem put_chunk_existing_noop_witness :
    (lookupObj corruptStoreW.objects
        (dataPath idHashers [1])).isSome = true
    ∧ corruptStoreW.put_chunk idHashers [1]
        = (corruptStoreW, ContentAddress.from_data idHashers [1]) :=
  ⟨by decide, put_chunk_existing_noop idHashers corruptStoreW [1] (by decide)⟩

/-! ### Claim C6: parse error kinds -/

/-- C6 counterexample: parsing `"sha256:"` followed by 63 hex characters
does NOT fail with `InvalidHashLength` — `hex::decode` rejects the
odd-length digit string first, so the error is `InvalidHex`. -/
theorem from_hex_63hex_not_invalidHashLength :
    ContentAddress.from_hex ("sha256:".data ++ List.replicate 63 'a')
      ≠ .error .invalidHashLength := by
  intro h
  rw [show ContentAddress.from_hex ("sha256:".data ++ List.replicate 63 'a')
      = .error .invalidHex from rfl] at h
  exact ContentAddressError.noConfusion (Except.error.inj h)

/-- C6 (amended): `"sha256:<63 hex>"` fails with `InvalidHex` (the hex
decoder rejects the odd length before the 32-byte length check;
`InvalidHashLength` arises for an even-length hex string of the wrong
size, e.g. 62 hex characters); `"unknown:<64 hex>"` fails with
`UnsupportedAlgorithm`; a string containing no colon fails with
`InvalidFormat`. -/
theorem from_hex_error_kinds :
    ContentAddress.from_hex ("sha256:".data ++ List.replicate 63 'a')
      = .error .invalidHex
    ∧ ContentAddress.from_hex ("sha256:".data ++ List.replicate 62 'a')
      = .error .invalidHashLength
    ∧ ContentAddress.from_hex ("unknown:".data ++ List.replicate 64 'a')
      = .error .unsupportedAlgorithm
    ∧ ContentAddress.from_hex "nocolonhere".data = .error .invalidFormat :=
  ⟨rfl, rfl, rfl, rfl⟩

/-! ### File registry (`src/file/registry.rs`)

`serde_json` serialization of the map is abstracted as an encode/decode
pair over an arbitrary file-content type `σ`; the round trip
`dec (enc m) = some m` (what serde guarantees) is a hypothesis where
needed.  The backing file's contents are threaded as `Option σ`
(`none` = the file does not exist).  The `HashMap` is an association
list with `HashMap::insert` semantics; Rust leaves its iteration order
unspecified, the model fixes one. -/

/-- A UUID (`uuid::Uuid`), represented by its hyphenated string form —
the model only generates, compares, and abbreviates file ids. -/
abbrev FileId := List Char

/-- `FileMetadata` from `src/file/registry.rs`. -/
structure FileMetadata where
  id : FileId
  original_name : List Char
  chunk_addresses : List ContentAddress
  total_size : Nat
  created_at : Nat
  chunk_count : Nat
deriving DecidableEq, Repr

/-- `FileMetadata::new`: the fresh UUID (`Uuid::new_v4()`) and the clock
(`SystemTime::now()`) come from the environment as arguments;
`chunk_count` is the length of the address list. -/
def FileMetadata.new (uuid : FileId) (now : Nat) (original_name : List Char)
    (chunk_addresses : List ContentAddress) (total_size : Nat) : FileMetadata :=
  { id := uuid
    original_name := original_name
    chunk_count := chunk_addresses.length
    chunk_addresses := chunk_addresses
    total_size := total_size
    created_at := now }

/-- `FileMetadata::short_id`:
`format!("{:.8}", id.to_string().replace('-', ""))` — the first 8
characters of the UUID string with dashes removed. -/
def FileMetadata.short_id (m : FileMetadata) : List Char :=
  (m.id.filter (fun c => c ≠ '-')).take 8

/-- `FileRegistryError` from `src/file/registry.rs` (payloads of the
pass-through `Io`/`Serialization` sources dropped). -/
inductive FileRegistryError where
  | io
  | serialization
  | fileNotFound (id : FileId)
  | corruptedRegistry
deriving DecidableEq, Repr

/-- `HashMap::insert`: replace the value at an existing key, otherwise add
the entry. -/
def insertEntry (files : List (FileId × FileMetadata)) (k : FileId)
    (v : FileMetadata) : List (FileId × FileMetadata) :=
  match files with
  | [] => [(k, v)]
  | (k0, v0) :: rest =>
    if k0 = k then (k, v) :: rest else (k0, v0) :: insertEntry rest k v

/-- `HashMap::get`. -/
def lookupEntry : List (FileId × FileMetadata) → FileId → Option FileMetadata
  | [], _ => none
  | (k0, v0) :: rest, k => if k0 = k then some v0 else lookupEntry rest k

/-- `FileRegistry`: the in-memory map (the backing path is fixed — one
registry owns one `file_registry.json`). -/
structure FileRegistry where
  files : List (FileId × FileMetadata)
deriving DecidableEq, Repr

/-- `FileRegistry::new` over the current backing-file contents: missing
file ⇒ empty registry; present ⇒ `load_registry`, whose parse failure is
`CorruptedRegistry`.  (`dec` abstracts `serde_json::from_str`; the
empty-file shortcut of `load_registry` is one more way to produce the
empty map and is subsumed by the abstraction.) -/
def FileRegistry.new {σ : Type}
    (dec : σ → Option (List (FileId × FileMetadata)))
    (disk : Option σ) : Except FileRegistryError FileRegistry :=
  match disk with
  | none => .ok { files := [] }
  | some s =>
    match dec s with
    | none => .error .corruptedRegistry
    | some files => .ok { files := files }

/-- `FileRegistry::register_file`: build the metadata, insert it into the
map, rewrite the whole backing file (`save_registry`), return the
metadata by value.  Result: ((new registry, new backing-file contents),
metadata). -/
def FileRegistry.register_file {σ : Type}
    (enc : List (FileId × FileMetadata) → σ) (reg : FileRegistry)
    (uuid : FileId) (now : Nat) (original_name : List Char)
    (chunk_addresses : List ContentAddress) (total_size : Nat) :
    (FileRegistry × Option σ) × FileMetadata :=
  let metadata := FileMetadata.new uuid now original_name chunk_addresses
    total_size
  let files2 := insertEntry reg.files metadata.id metadata
  (({ files := files2 }, some (enc files2)), metadata)

/-- `FileRegistry::get_file`. -/
def FileRegistry.get_file (reg : FileRegistry) (file_id : FileId) :
    Option FileMetadata :=
  lookupEntry reg.files file_id

/-- `FileRegistry::get_file_by_short_id`: scan the values for the first
metadata whose `short_id()` matches. -/
def FileRegistry.get_file_by_short_id (reg : FileRegistry) (s : List Char) :
    Option FileMetadata :=
  (reg.files.map Prod.snd).find? (fun m => m.short_id = s)

/-- `FileRegistry::file_count`. -/
def FileRegistry.file_count (reg : FileRegistry) : Nat :=
  reg.files.length

/-- `FileRegistry::total_size`. -/
def FileRegistry.total_size (reg : FileRegistry) : Nat :=
  ((reg.files.map Prod.snd).map FileMetadata.total_size).sum

/-! ### Registry lemmas -/

lemma lookupEntry_insertEntry (files : List (FileId × FileMetadata))
    (k : FileId) (v : FileMetadata) :
    lookupEntry (insertEntry files k v) k = some v := by
  induction files with
  | nil => simp [insertEntry, lookupEntry]
  | cons e rest ih =>
    obtain ⟨k0, v0⟩ := e
    by_cases hk : k0 = k
    · simp [insertEntry, hk, lookupEntry]
    · simp [insertEntry, hk, lookupEntry, ih]

lemma insertEntry_of_lookup_none (files : List (FileId × FileMetadata))
    (k : FileId) (v : FileMetadata)
    (h : lookupEntry files k = none) :
    insertEntry files k v = files ++ [(k, v)] := by
  induction files with
  | nil => rfl
  | cons e rest ih =>
    obtain ⟨k0, v0⟩ := e
    by_cases hk : k0 = k
    · simp [lookupEntry, hk] at h
    · simp only [lookupEntry, if_neg hk] at h
      simp [insertEntry, hk, ih h]

lemma find?_append_of_none {α : Type} (p : α → Bool) (l1 l2 : List α)
    (h : ∀ x ∈ l1, p x = false) :
    (l1 ++ l2).find? p = l2.find? p := by
  induction l1 with
  | nil => rfl
  | cons a rest ih =>
    have ha := h a (List.mem_cons_self a rest)
    simp only [List.cons_append, List.find?, ha]
    exact ih (fun x hx => h x (List.mem_cons_of_mem a hx))

/-- Loading the just-saved serialization restores exactly the saved map. -/
lemma new_over_saved {σ : Type} (enc : List (FileId × FileMetadata) → σ)
    (dec : σ → Option (List (FileId × FileMetadata)))
    (hrt : ∀ files, dec (enc files) = some files)
    (files : List (FileId × FileMetadata)) :
    FileRegistry.new dec (some (enc files)) = .ok { files := files } := by
  show (match dec (enc files) with
    | none => (Except.error FileRegistryError.corruptedRegistry :
        Except FileRegistryError FileRegistry)
    | some fs => Except.ok { files := fs }) = _
  rw [hrt]

/-- C5: for the metadata `m` returned by
`register_file(name, addrs, size)`: `m.chunk_count == addrs.len()`,
`get_file(m.id)` and `get_file_by_short_id(m.short_id())` both return
`m`, and constructing a new `FileRegistry` over the same storage
directory (the backing contents just written) yields the same map, on
which both lookups still return `m`.  Hypotheses: serde's round trip,
and freshness of the random UUID — it is not an existing key and its
short id collides with no registered entry (the spec documents that
32-bit short-id collisions are otherwise possible). -/
theorem register_file_lookup_persist {σ : Type}
    (enc : List (FileId × FileMetadata) → σ)
    (dec : σ → Option (List (FileId × FileMetadata)))
    (hrt : ∀ files, dec (enc files) = some files)
    (reg : FileRegistry) (uuid : FileId) (now : Nat) (name : List Char)
    (addrs : List ContentAddress) (size : Nat)
    (hfresh : lookupEntry reg.files uuid = none)
    (hshort : ∀ e ∈ reg.files,
      e.2.short_id ≠ (uuid.filter (fun c => c ≠ '-')).take 8) :
    (FileRegistry.register_file enc reg uuid now name addrs size).2.chunk_count
        = addrs.length
    ∧ (FileRegistry.register_file enc reg uuid now name addrs size).1.1.get_file
        (FileRegistry.register_file enc reg uuid now name addrs size).2.id
        = some (FileRegistry.register_file enc reg uuid now name addrs size).2
    ∧ (FileRegistry.register_file enc reg uuid now name addrs
        size).1.1.get_file_by_short_id
        (FileRegistry.register_file enc reg uuid now name addrs size).2.short_id
        = some (FileRegistry.register_file enc reg uuid now name addrs size).2
    ∧ FileRegistry.new dec
        (FileRegistry.register_file enc reg uuid now name addrs size).1.2
        = .ok (FileRegistry.register_file enc reg uuid now name addrs size).1.1
    := by
  refine ⟨rfl, ?_, ?_, ?_⟩
  · show lookupEntry (insertEntry reg.files uuid _) uuid = _
    exact lookupEntry_insertEntry reg.files uuid _
  · show ((insertEntry reg.files uuid _).map Prod.snd).find? _ = _
    rw [insertEntry_of_lookup_none reg.files uuid _ hfresh, List.map_append]
    rw [find?_append_of_none _ (reg.files.map Prod.snd) _ ?hnone]
    case hnone =>
      intro x hx
      obtain ⟨e, he, rfl⟩ := List.mem_map.mp hx
      exact decide_eq_false (hshort e he)
    rw [show (FileRegistry.register_file enc reg uuid now name addrs size).2
        = FileMetadata.new uuid now name addrs size from rfl]
    simp [List.find?, FileMetadata.short_id, FileMetadata.new]
  · exact new_over_saved enc dec hrt _

/-- Witness for C5: trivial serializer (`σ` is the map type itself), empty
initial registry, a concrete UUID. -/
theorem register_file_lookup_persist_witness :
    (∀ files, (some files : Option (List (FileId × FileMetadata)))
        = some files)
    ∧ lookupEntry (FileRegistry.mk []).files
        "123e4567-e89b-12d3-a456-426614174000".data = none
    ∧ (∀ e ∈ (FileRegistry.mk []).files,
        e.2.short_id
          ≠ ("123e4567-e89b-12d3-a456-426614174000".data.filter
              (fun c => c ≠ '-')).take 8)
    ∧ ((FileRegistry.register_file (fun fs => fs) (FileRegistry.mk [])
          "123e4567-e89b-12d3-a456-426614174000".data 1700000000
          "foo.txt".data [] 100).2.chunk_count = ([] : List ContentAddress).length
      ∧ (FileRegistry.register_file (fun fs => fs) (FileRegistry.mk [])
          "123e4567-e89b-12d3-a456-426614174000".data 1700000000
          "foo.txt".data [] 100).1.1.get_file
          (FileRegistry.register_file (fun fs => fs) (FileRegistry.mk [])
            "123e4567-e89b-12d3-a456-426614174000".data 1700000000
            "foo.txt".data [] 100).2.id
          = some (FileRegistry.register_file (fun fs => fs) (FileRegistry.mk [])
              "123e4567-e89b-12d3-a456-426614174000".data 1700000000
              "foo.txt".data [] 100).2
      ∧ (FileRegistry.register_file (fun fs => fs) (FileRegistry.mk [])
          "123e4567-e89b-12d3-a456-426614174000".data 1700000000
          "foo.txt".data [] 100).1.1.get_file_by_short_id
          (FileRegistry.register_file (fun fs => fs) (FileRegistry.mk [])
            "123e4567-e89b-12d3-a456-426614174000".data 1700000000
            "foo.txt".data [] 100).2.short_id
          = some (FileRegistry.register_file (fun fs => fs) (FileRegistry.mk [])
              "123e4567-e89b-12d3-a456-426614174000".data 1700000000
              "foo.txt".data [] 100).2
      ∧ FileRegistry.new some
          (FileRegistry.register_file (fun fs => fs) (FileRegistry.mk [])
            "123e4567-e89b-12d3-a456-426614174000".data 1700000000
            "foo.txt".data [] 100).1.2
          = .ok (FileRegistry.register_file (fun fs => fs) (FileRegistry.mk [])
              "123e4567-e89b-12d3-a456-426614174000".data 1700000000
              "foo.txt".data [] 100).1.1) :=
  ⟨fun _ => rfl, by decide, by decide,
   register_file_lookup_persist (fun fs => fs) some (fun _ => rfl)
     (FileRegistry.mk []) "123e4567-e89b-12d3-a456-426614174000".data
     1700000000 "foo.txt".data [] 100 (by decide) (by decide)⟩

/-! ### Node facade (`src/node.rs`, `src/config/enums.rs`) -/

/-- `LogLevel` from `src/config/enums.rs`. -/
inductive LogLevel where
  | error
  | warn
  | info
  | debug
  | trace
deriving DecidableEq, Repr

/-- `NodeState` from `src/config/enums.rs`. -/
inductive NodeState where
  | stopped
  | starting
  | running
  | stopping
  | error
deriving DecidableEq, Repr

/-- `NodeError` from `src/node.rs` (error-source payloads of the
pass-through constructors dropped). -/
inductive NodeError where
  | storage (e : ContentStoreError)
  | io
  | contentAddress (e : ContentAddressError)
  | serialization
  | contentNotFound
  | notRunning
  | general (message : List Char)
deriving DecidableEq, Repr

/-- `Node` from `src/node.rs`.  The node id is a UUID string; the
`FileRegistry` field is the in-memory registry. -/
structure Node where
  id : List Char
  state : NodeState
  address : List Char
  port : Nat
  storage_dir : List Char
  log_level : LogLevel
  daemon_mode : Bool
  content_store : ContentStore
  file_registry : FileRegistry
deriving DecidableEq, Repr

/-- `Node::is_running`: `matches!(self.state, NodeState::Running)`. -/
def Node.is_running (n : Node) : Bool :=
  n.state = NodeState.running

/-- `Node::start`: set `Starting`, run the (currently empty) startup
logic, set `Running`, return `Ok(())` — unconditionally. -/
def Node.start (n : Node) : Node × Except NodeError Unit :=
  let n1 := { n with state := NodeState.starting }
  let n2 := { n1 with state := NodeState.running }
  (n2, .ok ())

/-- `Node::stop`: set `Stopping`, then `Stopped`, return `Ok(())` —
unconditionally. -/
def Node.stop (n : Node) : Node × Except NodeError Unit :=
  let n1 := { n with state := NodeState.stopping }
  let n2 := { n1 with state := NodeState.stopped }
  (n2, .ok ())

/-- `Node::put_file`: reject with `NotRunning` when not running;
otherwise delegate to `ContentStore::put_file`, which reads the file and
runs `put_data` (the file's bytes come from the environment). -/
def Node.put_file (hs : Hashers) (cuts : List (Nat × Nat)) (n : Node)
    (file_bytes : List Nat) : Node × Except NodeError (List ContentAddress) :=
  if !n.is_running then (n, .error .notRunning)
  else
    let r := ContentStore.put_data hs cuts n.content_store file_bytes
    ({ n with content_store := r.1 }, .ok r.2)

/-- `Node::put_file_with_registry`: reject with `NotRunning` when not
running; otherwise stat the file size (`fs::metadata(path).len()` — the
byte length of the same file the store then reads), store the file, and
register (name, addresses, size).  The second component of the first
result is the registry write performed (`none` on the rejection path:
nothing is written). -/
def Node.put_file_with_registry {σ : Type} (hs : Hashers)
    (cuts : List (Nat × Nat)) (enc : List (FileId × FileMetadata) → σ)
    (uuid : FileId) (now : Nat) (n : Node) (file_bytes : List Nat)
    (original_name : List Char) :
    (Node × Option σ) × Except NodeError FileMetadata :=
  if !n.is_running then ((n, none), .error .notRunning)
  else
    let file_size := file_bytes.length
    let raddr := ContentStore.put_data hs cuts n.content_store file_bytes
    let rreg := FileRegistry.register_file enc n.file_registry uuid now
      original_name raddr.2 file_size
    (({ n with content_store := raddr.1, file_registry := rreg.1.1 },
      rreg.1.2), .ok rreg.2)

/-- C8: in every node state other than `Running`, the mutating operations
`put_file` and `put_file_with_registry` return the `NotRunning` error and
leave the node — in particular its content store and its file registry —
unchanged, and no registry write is performed. -/
theorem put_file_not_running {σ : Type} (hs : Hashers)
    (cuts : List (Nat × Nat)) (enc : List (FileId × FileMetadata) → σ)
    (uuid : FileId) (now : Nat) (n : Node) (file_bytes : List Nat)
    (name : List Char) (h : n.state ≠ NodeState.running) :
    Node.put_file hs cuts n file_bytes = (n, .error .notRunning)
    ∧ Node.put_file_with_registry hs cuts enc uuid now n file_bytes name
        = ((n, none), .error .notRunning) := by
  have hb : n.is_running = false := by
    unfold Node.is_running
    exact decide_eq_false h
  constructor
  · unfold Node.put_file
    rw [hb]
    rfl
  · unfold Node.put_file_with_registry
    rw [hb]
    rfl

/-- A concrete stopped node for the C8 witness. -/
def stoppedNodeW : Node :=
  { id := "123e4567-e89b-12d3-a456-426614174000".data
    state := NodeState.stopped
    address := "127.0.0.1".data
    port := 4001
    storage_dir := "store".data
    log_level := LogLevel.info
    daemon_mode := false
    content_store := ContentStore.empty ⟨"store".data, ⟨2, 1, 4, true⟩, true⟩
    file_registry := FileRegistry.mk [] }

/-- Witness for C8 on a concrete `Stopped` node. -/
theorem put_file_not_running_witness :
    stoppedNodeW.state ≠ NodeState.running
    ∧ (Node.put_file idHashers [] stoppedNodeW [1, 2, 3]
        = (stoppedNodeW, .error .notRunning)
      ∧ Node.put_file_with_registry idHashers [] (fun fs => fs)
          "123e4567-e89b-12d3-a456-426614174000".data 1700000000 stoppedNodeW
          [1, 2, 3] "foo.txt".data
        = ((stoppedNodeW, none), .error .notRunning)) :=
  ⟨by decide,
   put_file_not_running idHashers [] (fun fs => fs)
     "123e4567-e89b-12d3-a456-426614174000".data 1700000000 stoppedNodeW
     [1, 2, 3] "foo.txt".data (by decide)⟩

/-- C10: `start()` and `stop()` never reject a transition: from every
current state (including `Error` and `Stopped`), `start()` returns `Ok`
and leaves the state `Running`, `stop()` returns `Ok` and leaves the
state `Stopped`, and neither call modifies any other field (the record
updates touch only `state`). -/
theorem start_stop_total (n : Node) :
    n.start = ({ n with state := NodeState.running }, .ok ())
    ∧ n.stop = ({ n with state := NodeState.stopped }, .ok ()) :=
  ⟨rfl, rfl⟩

/-- A concrete well-formed address for the C7 witness. -/
def addrW : ContentAddress :=
  { hash := List.replicate 32 0, algorithm := HashAlgorithm.sha256 }

/-- Witness for C7 at a concrete 32-byte digest. -/
theorem from_hex_to_hex_roundtrip_witness :
    addrW.hash.length = 32
    ∧ (∀ b ∈ addrW.hash, b < 256)
    ∧ ContentAddress.from_hex addrW.to_hex = .ok addrW :=
  ⟨by decide, by decide,
   from_hex_to_hex_roundtrip addrW (by decide) (by decide)⟩
